import Mathlib

/-!
# SimpleCross order-matching engine: a shallow embedding

This file embeds the C++ program `SimpleCross` (file `simple_cross.cpp` and
the finished variant shipped alongside it) into Lean 4 and proves or refutes
the specification's claims about it.

Modelling conventions:
* `std::map<K,V>` becomes a sorted association list `List (K × V)`; the map
  operations (`insert`, `operator[]`, `erase`, `find`) are modelled by the
  `al*` helpers below, parameterised by a boolean comparison mirroring the
  map's `<`.
* `Price` is `double` in the source; every price originates from parsing a
  `d...d.ddddd` token (7.5 fixed format), and all the program does with
  prices is compare them and print them.  On that value set the double
  ordering coincides with the exact decimal ordering, so a price is embedded
  as the integer `value * 100000` (`Int`).
* `Quantity` is `uint16_t`; the only arithmetic is `q -= min(a, q)`, which
  can neither overflow nor underflow, so quantities are embedded as `Nat`
  (casts from `int` wrap modulo 2^16 exactly where the source casts).
* Output via `log(...)` goes to `stdout`; `SimpleCross::action` separately
  returns a `results_t`.  Both channels are modelled explicitly: an action
  outcome carries the list of logged lines and the returned list.
* C++ exceptions (`std::invalid_argument` from `stoi`, from the `Order`
  constructor, and from `_validateOrderId`) escape `action` uncaught; they
  are modelled with `Except`.  The few places where the source commits
  undefined behaviour (indexing an empty `std::vector`, `front()` on an
  empty string, erasing an end iterator) are modelled by a distinguished
  error value, respectively by a no-op where the surrounding code continues.
-/

namespace SimpleCross

/-- The two order sides accepted by the `Order` constructor (any other
`SIDE` character makes the constructor throw). -/
inductive Side where
  | buy
  | sell
deriving DecidableEq, Repr

/-- `struct Order`: identifier, symbol, side, (remaining) quantity and
limit price.  `qty` is mutated in place by the fill routines, exactly as in
the source. -/
structure Order where
  oid : Nat
  symbol : String
  side : Side
  qty : Nat
  px : Int
deriving DecidableEq, Repr

/-- `struct Fill`: one crossing event record, as pushed into the vector
returned by `_placeOrder`. -/
structure Fill where
  oid : Nat
  symbol : String
  qty : Nat
  px : Int
deriving DecidableEq, Repr

/-- `typedef std::list<Order> OrderQueue`. -/
abbrev OrderQueue := List Order

/-- `typedef std::map<Price, OrderQueue> PriceLevels` (sorted ascending by
price). -/
abbrev PriceLevels := List (Int × OrderQueue)

/-- `struct Sides { PriceLevels bids; PriceLevels asks; }`. -/
structure Sides where
  bids : PriceLevels
  asks : PriceLevels
deriving DecidableEq, Repr

/-- `typedef std::map<Symbol, Sides> OrderBook` (sorted ascending by
symbol). -/
abbrev OrderBook := List (String × Sides)

/-- `typedef std::map<OrderId, Order> OrderCache` (sorted ascending by
id). -/
abbrev OrderCache := List (Nat × Order)

/-- The private state of the `SimpleCross` class: the book and the order
cache (`debug` is `false` and therefore omitted). -/
structure State where
  orderBook : OrderBook
  orderCache : OrderCache
deriving DecidableEq, Repr

/-- The freshly constructed engine: both maps empty. -/
def initialState : State := ⟨[], []⟩

/-! ## Sorted association lists standing in for `std::map` -/

/-- `std::map::insert`: put `(k, v)` at its sorted position, keeping the
existing binding if an equivalent key is already present. -/
def alInsert (lt : κ → κ → Bool) (k : κ) (v : ν) : List (κ × ν) → List (κ × ν)
  | [] => [(k, v)]
  | (k', v') :: rest =>
    if lt k k' then (k, v) :: (k', v') :: rest
    else if lt k' k then (k', v') :: alInsert lt k v rest
    else (k', v') :: rest

/-- `std::map::operator[] = v`: put `(k, v)` at its sorted position,
replacing the binding if an equivalent key is present. -/
def alSet (lt : κ → κ → Bool) (k : κ) (v : ν) : List (κ × ν) → List (κ × ν)
  | [] => [(k, v)]
  | (k', v') :: rest =>
    if lt k k' then (k, v) :: (k', v') :: rest
    else if lt k' k then (k', v') :: alSet lt k v rest
    else (k, v) :: rest

/-- `std::map::find` / `std::map::at`, returning the mapped value when the
key is present. -/
def alFind? [DecidableEq κ] (k : κ) : List (κ × ν) → Option ν
  | [] => none
  | (k', v') :: rest => if k = k' then some v' else alFind? k rest

/-- `std::map::erase(key)`: drop the binding for `k` when present. -/
def alErase [DecidableEq κ] (k : κ) : List (κ × ν) → List (κ × ν)
  | [] => []
  | (k', v') :: rest => if k = k' then rest else (k', v') :: alErase k rest

/-- Read with a default, modelling the read part of `operator[]`. -/
def alGetD [DecidableEq κ] (k : κ) (m : List (κ × ν)) (d : ν) : ν :=
  (alFind? k m).getD d

/-- Comparison used by the price maps (`std::map<Price, _>`). -/
def pxLt (a b : Int) : Bool := a < b

/-- Lexicographic comparison of character sequences by character value —
exactly `std::string::operator<`. -/
def charListLt : List Char → List Char → Bool
  | [], [] => false
  | [], _ :: _ => true
  | _ :: _, [] => false
  | a :: as, b :: bs =>
    if a.toNat < b.toNat then true
    else if b.toNat < a.toNat then false
    else charListLt as bs

/-- Comparison used by the book map (`std::map<Symbol, _>`). -/
def symLt (a b : String) : Bool := charListLt a.toList b.toList

/-- Comparison used by the cache map (`std::map<OrderId, _>`). -/
def oidLt (a b : Nat) : Bool := a < b

/-! ## The crossing routines (`_fillBid`, `_fillAsk`) -/

/-- Result of the inner loop of `_fillBid` / `_fillAsk` over one resting
queue: the aggressor's remaining quantity, the fills pushed, the number of
`pop_back` calls recorded in `ordersToPop`, and the queue contents as left
by the loop (before the pops are applied). -/
structure QueueCross where
  qty : Nat
  fills : List Fill
  pops : Nat
  queue : OrderQueue
deriving DecidableEq, Repr

/-- The inner `for (Order& restingOrder : queue)` loop shared by `_fillBid`
and `_fillAsk`: walk the queue front to back, executing
`min(resting.qty, order.qty)` against each resting order, pushing a fill
(carrying the resting order's id and price) when shares executed, counting
an `ordersToPop` for every resting order whose quantity reaches zero, and
breaking as soon as the aggressor is exhausted. -/
def crossQueue : Nat → OrderQueue → QueueCross
  | qty, [] => ⟨qty, [], 0, []⟩
  | qty, r :: rest =>
    let exec := min r.qty qty
    let qty1 := qty - exec
    let r1 : Order := { r with qty := r.qty - exec }
    let fs : List Fill := if 0 < exec then [⟨r.oid, r.symbol, exec, r.px⟩] else []
    let pops := if r1.qty = 0 then 1 else 0
    if qty1 = 0 then ⟨0, fs, pops, r1 :: rest⟩
    else
      let c := crossQueue qty1 rest
      ⟨c.qty, fs ++ c.fills, pops + c.pops, r1 :: c.queue⟩

/-- `for (int i=0; i < ordersToPop; i++) queue.pop_back();` — remove `n`
elements from the back. -/
def dropBack (n : Nat) (l : List Order) : List Order :=
  l.take (l.length - n)

/-- Result of a whole fill pass: remaining aggressor quantity, fills, and
the side's price levels after the pass. -/
structure LevelsCross where
  qty : Nat
  fills : List Fill
  levels : PriceLevels
deriving DecidableEq, Repr

/-- The level loop of `_fillBid`.  The C++ iterates the ask map by value
(`for (std::pair<Price, OrderQueue> aPxLevel : askPxLevels)`), so every
quantity mutation and every `pop_back` lands on a copy of the queue; the
real book only changes when the copy ends up empty, in which case the whole
price level is erased (via `pxLevelsToDrop`).  A kept level therefore
retains its ORIGINAL queue `q`. -/
def fillBidLevels (px : Int) : Nat → PriceLevels → LevelsCross
  | qty, [] => ⟨qty, [], []⟩
  | qty, (apx, q) :: rest =>
    if apx ≤ px then
      let c := crossQueue qty q
      let copyAfterPops := dropBack c.pops c.queue
      let keep : PriceLevels := if copyAfterPops.isEmpty then [] else [(apx, q)]
      if c.qty = 0 then ⟨0, c.fills, keep ++ rest⟩
      else
        let r := fillBidLevels px c.qty rest
        ⟨r.qty, c.fills ++ r.fills, keep ++ r.levels⟩
    else
      let keep : PriceLevels := if q.isEmpty then [] else [(apx, q)]
      if qty = 0 then ⟨qty, [], keep ++ rest⟩
      else
        let r := fillBidLevels px qty rest
        ⟨r.qty, r.fills, keep ++ r.levels⟩

/-- The level loop of `_fillAsk`, which walks the bid map through reverse
iterators: the argument is the bid levels in DESCENDING price order, and —
unlike `_fillBid` — the queue reference is real, so executed quantities and
the (back-of-queue!) pops persist in the book. -/
def fillAskLevelsRev (px : Int) : Nat → PriceLevels → LevelsCross
  | qty, [] => ⟨qty, [], []⟩
  | qty, (bpx, q) :: rest =>
    if px ≤ bpx then
      let c := crossQueue qty q
      let afterPops := dropBack c.pops c.queue
      let keep : PriceLevels := if afterPops.isEmpty then [] else [(bpx, afterPops)]
      if c.qty = 0 then ⟨0, c.fills, keep ++ rest⟩
      else
        let r := fillAskLevelsRev px c.qty rest
        ⟨r.qty, c.fills ++ r.fills, keep ++ r.levels⟩
    else
      let keep : PriceLevels := if q.isEmpty then [] else [(bpx, q)]
      if qty = 0 then ⟨qty, [], keep ++ rest⟩
      else
        let r := fillAskLevelsRev px qty rest
        ⟨r.qty, r.fills, keep ++ r.levels⟩

/-- `_fillBid`: cross the incoming buy against the ask levels (ascending
price order, the map's natural order). -/
def fillBid (o : Order) (sides : Sides) : LevelsCross × Sides :=
  let r := fillBidLevels o.px o.qty sides.asks
  (r, { sides with asks := r.levels })

/-- `_fillAsk`: cross the incoming sell against the bid levels in reverse
(descending) price order. -/
def fillAsk (o : Order) (sides : Sides) : LevelsCross × Sides :=
  let r := fillAskLevelsRev o.px o.qty sides.bids.reverse
  (r, { sides with bids := r.levels.reverse })

/-- `_fillOrder`: dispatch on the side. -/
def fillOrder (o : Order) (sides : Sides) : LevelsCross × Sides :=
  match o.side with
  | Side.buy => fillBid o sides
  | Side.sell => fillAsk o sides

/-! ## Placement and cancellation -/

/-- `_placeOrderNewSymbol`: build a fresh `Sides` holding just this order
and insert it under the symbol. -/
def placeOrderNewSymbol (o : Order) (book : OrderBook) : OrderBook :=
  let orderQueue : OrderQueue := [o]
  let sides : Sides :=
    match o.side with
    | Side.buy => ⟨[(o.px, orderQueue)], []⟩
    | Side.sell => ⟨[], [(o.px, orderQueue)]⟩
  alInsert symLt o.symbol sides book

/-- `_placeOrderExistingSymbol`: first attempt to fill, then — if shares
remain — append the order (with its remaining quantity) to the queue at its
price, creating the level if absent.  Returns the remaining quantity, the
fills and the updated `Sides`. -/
def placeOrderExistingSymbol (o : Order) (sides : Sides) : Nat × List Fill × Sides :=
  let (r, sides1) := fillOrder o sides
  if r.qty ≠ 0 then
    let rested : Order := { o with qty := r.qty }
    match o.side with
    | Side.buy =>
      let pxLevels := sides1.bids
      let pxLevels' :=
        match alFind? o.px pxLevels with
        | none => alInsert pxLt o.px [rested] pxLevels
        | some q => alSet pxLt o.px (q ++ [rested]) pxLevels
      (r.qty, r.fills, { sides1 with bids := pxLevels' })
    | Side.sell =>
      let pxLevels := sides1.asks
      let pxLevels' :=
        match alFind? o.px pxLevels with
        | none => alInsert pxLt o.px [rested] pxLevels
        | some q => alSet pxLt o.px (q ++ [rested]) pxLevels
      (r.qty, r.fills, { sides1 with asks := pxLevels' })
  else (0, r.fills, sides1)

/-- `_validateOrderId`: scan the order cache and throw
`std::invalid_argument("Invalid Order ID")` if the id is present. -/
def validateOrderId (oid : Nat) (cache : OrderCache) : Bool :=
  (alFind? oid cache).isSome

/-- `_placeOrder`: validate the id (throwing on duplicates — modelled as
`none`), fill/rest the order, and cache it under its id when its remaining
quantity is non-zero.  Returns the fills and the new state. -/
def placeOrder (o : Order) (s : State) : Option (List Fill × State) :=
  if validateOrderId o.oid s.orderCache then none
  else
    match alFind? o.symbol s.orderBook with
    | none =>
      let book' := placeOrderNewSymbol o s.orderBook
      let cache' := if o.qty ≠ 0 then alInsert oidLt o.oid o s.orderCache else s.orderCache
      some ([], ⟨book', cache'⟩)
    | some sides =>
      let (qty', fills, sides') := placeOrderExistingSymbol o sides
      let book' := alSet symLt o.symbol sides' s.orderBook
      let o' : Order := { o with qty := qty' }
      let cache' := if qty' ≠ 0 then alInsert oidLt o.oid o' s.orderCache else s.orderCache
      some (fills, ⟨book', cache'⟩)

/-- Erase the first queue entry with the given id (`it` search plus
`erase(it)`); when no entry matches, the C++ erases the end iterator —
undefined behaviour — modelled as leaving the queue unchanged. -/
def removeFirstByOid (oid : Nat) : OrderQueue → OrderQueue
  | [] => []
  | o :: rest => if o.oid = oid then rest else o :: removeFirstByOid oid rest

/-- `_cancelOrder`: look the id up in the (never-cleaned) order cache;
on a miss return `false`.  On a hit, reach the queue at the cached order's
symbol/side/price (`operator[]` creating missing entries on the way),
erase the matching entry, and drop the price level if the queue is now
empty.  The function is written here as the net read-modify-write effect of
the C++ in-place mutations through `operator[]` references: an entry that
`operator[]` would create and that ends up empty is erased again at the
end, so it never survives. -/
def cancelOrder (oid : Nat) (s : State) : Bool × State :=
  match alFind? oid s.orderCache with
  | none => (false, s)
  | some ord =>
    let sides := alGetD ord.symbol s.orderBook ⟨[], []⟩
    let pxLevels := match ord.side with
      | Side.buy => sides.bids
      | Side.sell => sides.asks
    let q := alGetD ord.px pxLevels []
    let q' := removeFirstByOid oid q
    let pxLevels' := if q'.isEmpty then alErase ord.px pxLevels else alSet pxLt ord.px q' pxLevels
    let sides' := match ord.side with
      | Side.buy => { sides with bids := pxLevels' }
      | Side.sell => { sides with asks := pxLevels' }
    let book' := alSet symLt ord.symbol sides' s.orderBook
    (true, { s with orderBook := book' })

/-! ## Tokenisation and numeric parsing (`_splitLine`, `std::stoi`, `std::stod`) -/

/-- Exceptions that can escape `SimpleCross::action` uncaught, plus a
marker for the spots where the C++ commits undefined behaviour (indexing a
missing `std::vector` element, `front()` on an empty string). -/
inductive CrossError where
  | invalidArgument (msg : String)
  | undefinedBehaviour
deriving DecidableEq, Repr

/-- Helper for `_splitLine`: the `std::getline(iss, item, delim)` loop.
`cur` accumulates the current token reversed.  A delimiter ends the
current token; a delimiter that exhausts the input does not start a new
(empty) token, because the next `getline` call fails at end of stream. -/
def splitAux (delim : Char) (cur : List Char) : List Char → List String
  | [] => [String.mk cur.reverse]
  | [c] => if c = delim then [String.mk cur.reverse] else [String.mk (c :: cur).reverse]
  | c :: cs => if c = delim then String.mk cur.reverse :: splitAux delim [] cs
               else splitAux delim (c :: cur) cs

/-- `_splitLine` with the default delimiter: an empty line yields an empty
vector (the very first `getline` fails). -/
def splitLine (line : String) : List String :=
  match line.toList with
  | [] => []
  | cs => splitAux ' ' [] cs

/-- Value of a digit run. -/
def digitsVal (ds : List Char) : Nat :=
  ds.foldl (fun a c => a * 10 + (c.toNat - 48)) 0

/-- Parse a leading run of decimal digits; `none` when the input does not
start with a digit. -/
def parseDigits (cs : List Char) : Option (Nat × List Char) :=
  let ds := cs.takeWhile Char.isDigit
  if ds.isEmpty then none else some (digitsVal ds, cs.drop ds.length)

/-- `std::stoi`: optional sign, then at least one digit; trailing
characters are ignored; no digits throws `std::invalid_argument`.  (The
tokens fed to it never carry leading whitespace, and the inputs exercised
here are far from the `int` range, so whitespace skipping and
`std::out_of_range` are not modelled.) -/
def stoi (s : String) : Except CrossError Int :=
  match s.toList with
  | '-' :: cs =>
    match parseDigits cs with
    | some (n, _) => .ok (-(n : Int))
    | none => .error (.invalidArgument "stoi")
  | '+' :: cs =>
    match parseDigits cs with
    | some (n, _) => .ok ((n : Int))
    | none => .error (.invalidArgument "stoi")
  | cs =>
    match parseDigits cs with
    | some (n, _) => .ok ((n : Int))
    | none => .error (.invalidArgument "stoi")

/-- `std::stod` restricted to the shapes the program feeds it, returning
the price scaled by `10^5` (the double ordering on parsed `7.5`-format
decimals coincides with this integer's ordering): optional sign, an
integer digit run, and optionally a point followed by a fraction run of
which the first five digits are significant at this scale. -/
def stodScaled (s : String) : Except CrossError Int :=
  let core : List Char → Except CrossError Nat := fun cs =>
    match parseDigits cs with
    | some (n, rest) =>
      match rest with
      | '.' :: fs =>
        let ds := (fs.takeWhile Char.isDigit).take 5
        let scale : Nat := 10 ^ (5 - ds.length)
        .ok (n * 100000 + digitsVal ds * scale)
      | _ => .ok (n * 100000)
    | none => .error (.invalidArgument "stod")
  match s.toList with
  | '-' :: cs => (core cs).map (fun n => -(n : Int))
  | '+' :: cs => (core cs).map (fun n => (n : Int))
  | cs => (core cs).map (fun n => (n : Int))

/-! ## Output formatting (`log`, `_printFills`, `_printCancel`,
`_printSortedBook`) -/

/-- Left-pad with zeroes to the given width. -/
def leftPad0 (w : Nat) (s : String) : String :=
  String.mk (List.replicate (w - s.length) '0') ++ s

/-- `std::to_string(double)` formats with `%f`, i.e. six digits after the
point; on a value that is a multiple of `10^-5` the sixth digit is exact.
The argument is the scaled price. -/
def natPrice6 (n : Nat) : String :=
  let u := n * 10
  toString (u / 1000000) ++ "." ++ leftPad0 6 (toString (u % 1000000))

/-- Render a scaled price the way `std::to_string` renders the double. -/
def priceToString (p : Int) : String :=
  if p < 0 then "-" ++ natPrice6 p.natAbs else natPrice6 p.toNat

/-- `_printFills`: one logged line per fill record. -/
def printFills (fills : List Fill) : List String :=
  fills.map fun f =>
    "F " ++ toString f.oid ++ " " ++ f.symbol ++ " " ++ toString f.qty ++ " " ++ priceToString f.px

/-- `_printCancel`: `X <oid>` on success, otherwise the not-on-book error
line. -/
def printCancel (oid : Nat) (cancelled : Bool) : List String :=
  if cancelled then ["X " ++ toString oid]
  else ["E " ++ toString oid ++ " Order ID not on book"]

/-- One `P` book-entry line per order of one queue; the side character and
the level price come from the enclosing loops. -/
def printQueue (symbol : String) (sideStr : String) (price : Int) (q : OrderQueue) : List String :=
  q.map fun o =>
    "P " ++ toString o.oid ++ " " ++ symbol ++ " " ++ sideStr ++ " " ++
      toString o.qty ++ " " ++ priceToString price

/-- `_printSortedBook`: for each symbol (map order), the ask levels through
reverse iterators (highest price first) with each queue walked front to
back, then the bid levels likewise.  An empty book logs `Book empty!`. -/
def printSortedBook (book : OrderBook) : List String :=
  if book.isEmpty then ["Book empty!"]
  else
    book.foldr
      (fun sv acc =>
        sv.2.asks.reverse.foldr (fun lv acc2 => printQueue sv.1 "S" lv.1 lv.2 ++ acc2)
          (sv.2.bids.reverse.foldr (fun lv acc2 => printQueue sv.1 "B" lv.1 lv.2 ++ acc2) acc))
      []

/-! ## The dispatcher (`SimpleCross::action`) -/

/-- What one `action` call produces: the state afterwards, the lines
written to standard output through `log`, and the `results_t` value the
function returns to its caller. -/
structure ActionOutcome where
  state : State
  logged : List String
  returned : List String
deriving DecidableEq, Repr

/-- `instructions[0][0]`: `std::string::operator[]` at `size()` yields the
null terminator, so an empty first token dispatches to no action. -/
def headCharOrNull (s : String) : Char :=
  match s.toList with
  | [] => Char.ofNat 0
  | c :: _ => c

/-- `instructions[3].front()`: undefined on an empty token. -/
def frontChar (s : String) : Except CrossError Char :=
  match s.toList with
  | [] => .error .undefinedBehaviour
  | c :: _ => .ok c

/-- The `Order` constructor's side check: anything other than `B`/`S`
throws `std::invalid_argument("Invalid Order Side")`. -/
def charSide (c : Char) : Except CrossError Side :=
  if c = 'B' then .ok Side.buy
  else if c = 'S' then .ok Side.sell
  else .error (.invalidArgument "Invalid Order Side")

/-- `static_cast<OrderId>` of the `stoi` result (conversion to `uint32_t`
wraps modulo `2^32`). -/
def u32 (v : Int) : Nat := (v % (4294967296 : Int)).toNat

/-- `static_cast<Quantity>` of the `stoi` result (conversion to `uint16_t`
wraps modulo `2^16`). -/
def u16 (v : Int) : Nat := (v % (65536 : Int)).toNat

/-- `SimpleCross::action`: split the line, dispatch on the first character
of the first token, run the engine, log the outcome lines — and return an
empty `results_t` (the literal `return results_t();` of the source).
Escaping exceptions are `Except.error`; a line whose missing fields would
make the source index past the end of `instructions` is
`undefinedBehaviour`. -/
def action (line : String) (s : State) : Except CrossError ActionOutcome :=
  match splitLine line with
  | [] => .error .undefinedBehaviour
  | instr0 :: rest =>
    let a := headCharOrNull instr0
    if a = 'O' then
      match rest with
      | i1 :: i2 :: i3 :: i4 :: i5 :: _ => do
        let oidv ← stoi i1
        let sc ← frontChar i3
        let qtyv ← stoi i4
        let pxv ← stodScaled i5
        let side ← charSide sc
        let o : Order := ⟨u32 oidv, i2, side, u16 qtyv, pxv⟩
        match placeOrder o s with
        | none => .error (.invalidArgument "Invalid Order ID")
        | some (fills, s') => .ok ⟨s', printFills fills, []⟩
      | _ => .error .undefinedBehaviour
    else if a = 'X' then
      match rest with
      | i1 :: _ => do
        let oidv ← stoi i1
        let r := cancelOrder (u32 oidv) s
        .ok ⟨r.2, printCancel (u32 oidv) r.1, []⟩
      | _ => .error .undefinedBehaviour
    else if a = 'P' then
      .ok ⟨s, printSortedBook s.orderBook, []⟩
    else
      .ok ⟨s, [], []⟩

/-! ## Reachable engine states

The engine is driven one action per line; for state-invariant claims the
relevant alphabet is the three dispatched operations with arbitrary
(constructor-validated) arguments.  A duplicate-id place throws before any
mutation, leaving the state as it was. -/

/-- One dispatched engine operation. -/
inductive Cmd where
  | place (o : Order)
  | cancel (oid : Nat)
  | print
deriving DecidableEq, Repr

/-- The state transition of one operation. -/
def applyCmd (c : Cmd) (s : State) : State :=
  match c with
  | .place o =>
    match placeOrder o s with
    | none => s
    | some (_, s') => s'
  | .cancel oid => (cancelOrder oid s).2
  | .print => s

/-- Run a list of operations from a state. -/
def runCmds (cmds : List Cmd) (s : State) : State :=
  cmds.foldl (fun s c => applyCmd c s) s

/-- States the engine can be in after some sequence of operations from the
freshly constructed engine. -/
inductive Reachable : State → Prop where
  | init : Reachable initialState
  | step (c : Cmd) {s : State} : Reachable s → Reachable (applyCmd c s)

/-- Every state produced by running a command list from the initial state
is reachable. -/
theorem reachable_runCmds (cmds : List Cmd) :
    Reachable (runCmds cmds initialState) := by
  suffices h : ∀ s, Reachable s → Reachable (runCmds cmds s) from
    h initialState Reachable.init
  induction cmds with
  | nil => intro s hs; exact hs
  | cons c cs ih => intro s hs; exact ih _ (Reachable.step c hs)

/-! ## The no-cross invariant (claim C4)

The book never holds a bid level and an ask level of one symbol whose
prices cross.  The proof goes through every operation: `_fillBid` and
`_fillAsk` only ever delete whole price levels from the opposite side (or,
for `_fillAsk`, shrink queues in place without touching level prices), and
an incoming order rests only when its remaining quantity is non-zero —
which, by the structure of the level loops, forces every marketable
opposite level to have been consumed and erased first. -/

/-- Membership after a `std::map::insert`: the new binding or an old
one. -/
theorem mem_alInsert {lt : κ → κ → Bool} {k : κ} {v : ν} {m : List (κ × ν)} :
    ∀ x ∈ alInsert lt k v m, x = (k, v) ∨ x ∈ m := by
  induction m with
  | nil => simp [alInsert]
  | cons kv rest ih =>
    obtain ⟨k', v'⟩ := kv
    intro x hx
    simp only [alInsert] at hx
    split at hx
    · rcases List.mem_cons.mp hx with h1 | h1
      · exact Or.inl h1
      · exact Or.inr h1
    · split at hx
      · rcases List.mem_cons.mp hx with h1 | h1
        · exact Or.inr (h1 ▸ List.mem_cons_self _ _)
        · rcases ih x h1 with h2 | h2
          · exact Or.inl h2
          · exact Or.inr (List.mem_cons_of_mem _ h2)
      · exact Or.inr hx

/-- Membership after a `std::map` assignment: the assigned binding or an
old one. -/
theorem mem_alSet {lt : κ → κ → Bool} {k : κ} {v : ν} {m : List (κ × ν)} :
    ∀ x ∈ alSet lt k v m, x = (k, v) ∨ x ∈ m := by
  induction m with
  | nil => simp [alSet]
  | cons kv rest ih =>
    obtain ⟨k', v'⟩ := kv
    intro x hx
    simp only [alSet] at hx
    split at hx
    · rcases List.mem_cons.mp hx with h1 | h1
      · exact Or.inl h1
      · exact Or.inr h1
    · split at hx
      · rcases List.mem_cons.mp hx with h1 | h1
        · exact Or.inr (h1 ▸ List.mem_cons_self _ _)
        · rcases ih x h1 with h2 | h2
          · exact Or.inl h2
          · exact Or.inr (List.mem_cons_of_mem _ h2)
      · rcases List.mem_cons.mp hx with h1 | h1
        · exact Or.inl h1
        · exact Or.inr (List.mem_cons_of_mem _ h1)

/-- Erasing only removes bindings. -/
theorem mem_alErase [DecidableEq κ] {k : κ} {m : List (κ × ν)} :
    ∀ x ∈ alErase k m, x ∈ m := by
  induction m with
  | nil => simp [alErase]
  | cons kv rest ih =>
    obtain ⟨k', v'⟩ := kv
    intro x hx
    simp only [alErase] at hx
    split at hx
    · exact List.mem_cons_of_mem _ hx
    · rcases List.mem_cons.mp hx with h1 | h1
      · exact h1 ▸ List.mem_cons_self _ _
      · exact List.mem_cons_of_mem _ (ih x h1)

/-- A successful lookup is a membership. -/
theorem alFind?_mem [DecidableEq κ] {k : κ} {v : ν} {m : List (κ × ν)}
    (h : alFind? k m = some v) : (k, v) ∈ m := by
  induction m with
  | nil => simp [alFind?] at h
  | cons kv rest ih =>
    obtain ⟨k', v'⟩ := kv
    simp only [alFind?] at h
    split at h
    · next heq =>
      obtain rfl := Option.some.inj h
      subst heq
      exact List.mem_cons_self _ _
    · exact List.mem_cons_of_mem _ (ih h)

/-- The inner crossing loop never changes the length of the queue it works
on (it rewrites quantities in place and breaks early, leaving the tail). -/
theorem crossQueue_queue_length (qty : Nat) (q : OrderQueue) :
    (crossQueue qty q).queue.length = q.length := by
  induction q generalizing qty with
  | nil => simp [crossQueue]
  | cons r rest ih =>
    simp only [crossQueue]
    split
    · simp
    · simpa using ih _

/-- If the aggressor still has shares after the inner loop, it broke on no
resting order: every resting order of the queue was fully consumed and
counted in `ordersToPop`. -/
theorem crossQueue_pops_of_qty_ne_zero (qty : Nat) (q : OrderQueue)
    (h : (crossQueue qty q).qty ≠ 0) : (crossQueue qty q).pops = q.length := by
  induction q generalizing qty with
  | nil => simp [crossQueue]
  | cons r rest ih =>
    by_cases hz : qty - min r.qty qty = 0
    · exfalso
      simp [crossQueue, hz] at h
    · have hq : (crossQueue (qty - min r.qty qty) rest).qty ≠ 0 := by
        simpa [crossQueue, hz] using h
      have hpops := ih _ hq
      have hr : r.qty - min r.qty qty = 0 := by omega
      simp [crossQueue, hz, hr, hpops]
      omega

/-- Popping at least the whole queue leaves it empty. -/
theorem dropBack_all {n : Nat} {l : List Order} (h : l.length ≤ n) :
    dropBack n l = [] := by
  simp [dropBack, Nat.sub_eq_zero_of_le h]

/-- `_fillBid` only ever deletes price levels from the ask side: every
surviving level's price was a level price before the pass. -/
theorem fillBidLevels_levels_sub (px : Int) (qty : Nat) (levels : PriceLevels) :
    ∀ p qq, (p, qq) ∈ (fillBidLevels px qty levels).levels → ∃ q0, (p, q0) ∈ levels := by
  induction levels generalizing qty with
  | nil => simp [fillBidLevels]
  | cons lv rest ih =>
    obtain ⟨apx, q⟩ := lv
    intro p qq hm
    by_cases hmk : apx ≤ px
    · by_cases hz : (crossQueue qty q).qty = 0
      · simp only [fillBidLevels, hmk, if_true, hz] at hm
        rcases List.mem_append.mp hm with h1 | h1
        · split at h1
          · simp at h1
          · simp only [List.mem_singleton, Prod.mk.injEq] at h1
            exact ⟨q, by rw [h1.1]; exact List.mem_cons_self _ _⟩
        · exact ⟨qq, List.mem_cons_of_mem _ h1⟩
      · simp only [fillBidLevels, hmk, if_true, hz, if_false] at hm
        rcases List.mem_append.mp hm with h1 | h1
        · split at h1
          · simp at h1
          · simp only [List.mem_singleton, Prod.mk.injEq] at h1
            exact ⟨q, by rw [h1.1]; exact List.mem_cons_self _ _⟩
        · obtain ⟨q0, hq0⟩ := ih _ p qq h1
          exact ⟨q0, List.mem_cons_of_mem _ hq0⟩
    · by_cases hq0 : qty = 0
      · simp only [fillBidLevels, hmk, if_false, hq0, if_true] at hm
        rcases List.mem_append.mp hm with h1 | h1
        · split at h1
          · simp at h1
          · simp only [List.mem_singleton, Prod.mk.injEq] at h1
            exact ⟨q, by rw [h1.1]; exact List.mem_cons_self _ _⟩
        · exact ⟨qq, List.mem_cons_of_mem _ h1⟩
      · simp only [fillBidLevels, hmk, if_false, hq0] at hm
        rcases List.mem_append.mp hm with h1 | h1
        · split at h1
          · simp at h1
          · simp only [List.mem_singleton, Prod.mk.injEq] at h1
            exact ⟨q, by rw [h1.1]; exact List.mem_cons_self _ _⟩
        · obtain ⟨q0, hq0'⟩ := ih _ p qq h1
          exact ⟨q0, List.mem_cons_of_mem _ hq0'⟩

/-- If the incoming buy still has shares after `_fillBid`, every marketable
ask level was fully consumed (as a copy) and erased from the book: every
surviving ask level's price strictly exceeds the buy's limit price. -/
theorem fillBidLevels_cleared (px : Int) (qty : Nat) (levels : PriceLevels)
    (h : (fillBidLevels px qty levels).qty ≠ 0) :
    ∀ p qq, (p, qq) ∈ (fillBidLevels px qty levels).levels → px < p := by
  induction levels generalizing qty with
  | nil => simp [fillBidLevels]
  | cons lv rest ih =>
    obtain ⟨apx, q⟩ := lv
    intro p qq hm
    by_cases hmk : apx ≤ px
    · by_cases hz : (crossQueue qty q).qty = 0
      · exfalso
        simp [fillBidLevels, hmk, hz] at h
      · have hkeep : dropBack (crossQueue qty q).pops (crossQueue qty q).queue = [] :=
          dropBack_all (le_of_eq (by
            rw [crossQueue_queue_length, crossQueue_pops_of_qty_ne_zero _ _ hz]))
        have hq' : (fillBidLevels px (crossQueue qty q).qty rest).qty ≠ 0 := by
          simpa [fillBidLevels, hmk, hz] using h
        simp only [fillBidLevels, hmk, if_true, hz, if_false, hkeep, List.isEmpty_nil,
          List.nil_append] at hm
        exact ih _ hq' p qq hm
    · have hpx : px < apx := lt_of_not_le hmk
      by_cases hq0 : qty = 0
      · exfalso
        simp [fillBidLevels, hmk, hq0] at h
      · have hq' : (fillBidLevels px qty rest).qty ≠ 0 := by
          simpa [fillBidLevels, hmk, hq0] using h
        simp only [fillBidLevels, hmk, if_false, hq0] at hm
        rcases List.mem_append.mp hm with h1 | h1
        · split at h1
          · simp at h1
          · simp only [List.mem_singleton, Prod.mk.injEq] at h1
            rw [h1.1]
            exact hpx
        · exact ih _ hq' p qq h1

/-- `_fillAsk` shrinks bid queues in place and deletes emptied levels, but
never changes a level's price: every surviving level's price was a level
price before the pass. -/
theorem fillAskLevelsRev_levels_sub (px : Int) (qty : Nat) (levels : PriceLevels) :
    ∀ p qq, (p, qq) ∈ (fillAskLevelsRev px qty levels).levels → ∃ q0, (p, q0) ∈ levels := by
  induction levels generalizing qty with
  | nil => simp [fillAskLevelsRev]
  | cons lv rest ih =>
    obtain ⟨bpx, q⟩ := lv
    intro p qq hm
    by_cases hmk : px ≤ bpx
    · by_cases hz : (crossQueue qty q).qty = 0
      · simp only [fillAskLevelsRev, hmk, if_true, hz] at hm
        rcases List.mem_append.mp hm with h1 | h1
        · split at h1
          · simp at h1
          · simp only [List.mem_singleton, Prod.mk.injEq] at h1
            exact ⟨q, by rw [h1.1]; exact List.mem_cons_self _ _⟩
        · exact ⟨qq, List.mem_cons_of_mem _ h1⟩
      · simp only [fillAskLevelsRev, hmk, if_true, hz, if_false] at hm
        rcases List.mem_append.mp hm with h1 | h1
        · split at h1
          · simp at h1
          · simp only [List.mem_singleton, Prod.mk.injEq] at h1
            exact ⟨q, by rw [h1.1]; exact List.mem_cons_self _ _⟩
        · obtain ⟨q0, hq0⟩ := ih _ p qq h1
          exact ⟨q0, List.mem_cons_of_mem _ hq0⟩
    · by_cases hq0 : qty = 0
      · simp only [fillAskLevelsRev, hmk, if_false, hq0, if_true] at hm
        rcases List.mem_append.mp hm with h1 | h1
        · split at h1
          · simp at h1
          · simp only [List.mem_singleton, Prod.mk.injEq] at h1
            exact ⟨q, by rw [h1.1]; exact List.mem_cons_self _ _⟩
        · exact ⟨qq, List.mem_cons_of_mem _ h1⟩
      · simp only [fillAskLevelsRev, hmk, if_false, hq0] at hm
        rcases List.mem_append.mp hm with h1 | h1
        · split at h1
          · simp at h1
          · simp only [List.mem_singleton, Prod.mk.injEq] at h1
            exact ⟨q, by rw [h1.1]; exact List.mem_cons_self _ _⟩
        · obtain ⟨q0, hq0'⟩ := ih _ p qq h1
          exact ⟨q0, List.mem_cons_of_mem _ hq0'⟩

/-- If the incoming sell still has shares after `_fillAsk`, every
marketable bid level was fully consumed and erased: every surviving bid
level's price is strictly below the sell's limit price. -/
theorem fillAskLevelsRev_cleared (px : Int) (qty : Nat) (levels : PriceLevels)
    (h : (fillAskLevelsRev px qty levels).qty ≠ 0) :
    ∀ p qq, (p, qq) ∈ (fillAskLevelsRev px qty levels).levels → p < px := by
  induction levels generalizing qty with
  | nil => simp [fillAskLevelsRev]
  | cons lv rest ih =>
    obtain ⟨bpx, q⟩ := lv
    intro p qq hm
    by_cases hmk : px ≤ bpx
    · by_cases hz : (crossQueue qty q).qty = 0
      · exfalso
        simp [fillAskLevelsRev, hmk, hz] at h
      · have hkeep : dropBack (crossQueue qty q).pops (crossQueue qty q).queue = [] :=
          dropBack_all (le_of_eq (by
            rw [crossQueue_queue_length, crossQueue_pops_of_qty_ne_zero _ _ hz]))
        have hq' : (fillAskLevelsRev px (crossQueue qty q).qty rest).qty ≠ 0 := by
          simpa [fillAskLevelsRev, hmk, hz] using h
        simp only [fillAskLevelsRev, hmk, if_true, hz, if_false, hkeep, List.isEmpty_nil,
          List.nil_append] at hm
        exact ih _ hq' p qq hm
    · have hpx : bpx < px := lt_of_not_le hmk
      by_cases hq0 : qty = 0
      · exfalso
        simp [fillAskLevelsRev, hmk, hq0] at h
      · have hq' : (fillAskLevelsRev px qty rest).qty ≠ 0 := by
          simpa [fillAskLevelsRev, hmk, hq0] using h
        simp only [fillAskLevelsRev, hmk, if_false, hq0] at hm
        rcases List.mem_append.mp hm with h1 | h1
        · split at h1
          · simp at h1
          · simp only [List.mem_singleton, Prod.mk.injEq] at h1
            rw [h1.1]
            exact hpx
        · exact ih _ hq' p qq h1

/-- No resting bid/ask price pair of one symbol crosses: every bid level
price is strictly below every ask level price. -/
def sidesNoCross (sd : Sides) : Prop :=
  ∀ bl ∈ sd.bids, ∀ al ∈ sd.asks, bl.1 < al.1

/-- The no-cross property for every symbol of the book. -/
def stateNoCross (s : State) : Prop :=
  ∀ sym sd, (sym, sd) ∈ s.orderBook → sidesNoCross sd

/-- `_placeOrderExistingSymbol` preserves no-cross: the fill pass only
deletes opposite levels, and the order rests only when the fill pass left
no marketable opposite level. -/
theorem sidesNoCross_placeOrderExistingSymbol (o : Order) (sd : Sides)
    (h : sidesNoCross sd) : sidesNoCross (placeOrderExistingSymbol o sd).2.2 := by
  cases hside : o.side with
  | buy =>
    by_cases hz : (fillBidLevels o.px o.qty sd.asks).qty = 0
    · simp only [placeOrderExistingSymbol, fillOrder, hside, fillBid, hz, ne_eq,
        not_true_eq_false, if_false]
      intro bl hbl al hal
      obtain ⟨q0, hq0⟩ := fillBidLevels_levels_sub o.px o.qty sd.asks al.1 al.2 hal
      exact h bl hbl (al.1, q0) hq0
    · simp only [placeOrderExistingSymbol, fillOrder, hside, fillBid, hz, ne_eq,
        not_false_eq_true, if_true]
      cases hfind : alFind? o.px sd.bids with
      | none =>
        simp only [hfind]
        intro bl hbl al hal
        rcases mem_alInsert bl hbl with hbl' | hbl'
        · rw [congrArg Prod.fst hbl']
          exact fillBidLevels_cleared o.px o.qty sd.asks hz al.1 al.2 hal
        · obtain ⟨q0, hq0⟩ := fillBidLevels_levels_sub o.px o.qty sd.asks al.1 al.2 hal
          exact h bl hbl' (al.1, q0) hq0
      | some q =>
        simp only [hfind]
        intro bl hbl al hal
        rcases mem_alSet bl hbl with hbl' | hbl'
        · rw [congrArg Prod.fst hbl']
          exact fillBidLevels_cleared o.px o.qty sd.asks hz al.1 al.2 hal
        · obtain ⟨q0, hq0⟩ := fillBidLevels_levels_sub o.px o.qty sd.asks al.1 al.2 hal
          exact h bl hbl' (al.1, q0) hq0
  | sell =>
    by_cases hz : (fillAskLevelsRev o.px o.qty sd.bids.reverse).qty = 0
    · simp only [placeOrderExistingSymbol, fillOrder, hside, fillAsk, hz, ne_eq,
        not_true_eq_false, if_false]
      intro bl hbl al hal
      obtain ⟨q0, hq0⟩ := fillAskLevelsRev_levels_sub o.px o.qty sd.bids.reverse bl.1 bl.2
        (List.mem_reverse.mp hbl)
      exact h (bl.1, q0) (List.mem_reverse.mp hq0) al hal
    · simp only [placeOrderExistingSymbol, fillOrder, hside, fillAsk, hz, ne_eq,
        not_false_eq_true, if_true]
      cases hfind : alFind? o.px sd.asks with
      | none =>
        simp only [hfind]
        intro bl hbl al hal
        rcases mem_alInsert al hal with hal' | hal'
        · rw [congrArg Prod.fst hal']
          exact fillAskLevelsRev_cleared o.px o.qty sd.bids.reverse hz bl.1 bl.2
            (List.mem_reverse.mp hbl)
        · obtain ⟨q0, hq0⟩ := fillAskLevelsRev_levels_sub o.px o.qty sd.bids.reverse bl.1 bl.2
            (List.mem_reverse.mp hbl)
          exact h (bl.1, q0) (List.mem_reverse.mp hq0) al hal'
      | some q =>
        simp only [hfind]
        intro bl hbl al hal
        rcases mem_alSet al hal with hal' | hal'
        · rw [congrArg Prod.fst hal']
          exact fillAskLevelsRev_cleared o.px o.qty sd.bids.reverse hz bl.1 bl.2
            (List.mem_reverse.mp hbl)
        · obtain ⟨q0, hq0⟩ := fillAskLevelsRev_levels_sub o.px o.qty sd.bids.reverse bl.1 bl.2
            (List.mem_reverse.mp hbl)
          exact h (bl.1, q0) (List.mem_reverse.mp hq0) al hal'

/-- A book holding a single order on one side never crosses. -/
theorem sidesNoCross_newSymbol (o : Order) :
    sidesNoCross (match o.side with
      | Side.buy => (⟨[(o.px, [o])], []⟩ : Sides)
      | Side.sell => (⟨[], [(o.px, [o])]⟩ : Sides)) := by
  cases o.side with
  | buy => intro bl hbl al hal; simp at hal
  | sell => intro bl hbl al hal; simp at hbl

/-- `_placeOrder` preserves no-cross for every symbol. -/
theorem stateNoCross_placeOrder {o : Order} {s : State} {fills : List Fill} {s' : State}
    (h : stateNoCross s) (hp : placeOrder o s = some (fills, s')) : stateNoCross s' := by
  unfold placeOrder at hp
  split at hp
  · exact absurd hp (by simp)
  · split at hp
    · next hfind =>
      simp only [Option.some.injEq, Prod.mk.injEq] at hp
      obtain ⟨-, hs⟩ := hp
      subst hs
      intro sym sd hmem
      rcases mem_alInsert (sym, sd) hmem with h1 | h1
      · have hsd : sd = _ := congrArg Prod.snd h1
        rw [hsd]
        exact sidesNoCross_newSymbol o
      · exact h sym sd h1
    · next sides hfind =>
      rcases hps : placeOrderExistingSymbol o sides with ⟨qty2, fills2, sides2⟩
      rw [hps] at hp
      simp only [Option.some.injEq, Prod.mk.injEq] at hp
      obtain ⟨-, hs⟩ := hp
      subst hs
      intro sym sd hmem
      rcases mem_alSet (sym, sd) hmem with h1 | h1
      · have hsd : sd = sides2 := congrArg Prod.snd h1
        have hnc := sidesNoCross_placeOrderExistingSymbol o sides
          (h o.symbol sides (alFind?_mem hfind))
        rw [hps] at hnc
        rw [hsd]
        exact hnc
      · exact h sym sd h1

/-- The `Sides` value the cancel path reads through `operator[]` satisfies
no-cross (an absent symbol reads as the empty default). -/
theorem sidesNoCross_getD {s : State} (h : stateNoCross s) (sym : String) :
    sidesNoCross (alGetD sym s.orderBook ⟨[], []⟩) := by
  unfold alGetD
  cases hfind : alFind? sym s.orderBook with
  | none => intro bl hbl al hal; simp at hbl
  | some sd =>
    simp only [Option.getD_some]
    exact h sym sd (alFind?_mem hfind)

/-- The queue surgery of `_cancelOrder` never adds a price level: every
surviving level price of the touched side was a level price before. -/
theorem mem_cancel_pxLevels {oid : Nat} {px : Int} {pxLevels : PriceLevels}
    {x : Int × OrderQueue}
    (hx : x ∈ (if (removeFirstByOid oid (alGetD px pxLevels [])).isEmpty
               then alErase px pxLevels
               else alSet pxLt px (removeFirstByOid oid (alGetD px pxLevels [])) pxLevels)) :
    ∃ q0, (x.1, q0) ∈ pxLevels := by
  split at hx
  · exact ⟨x.2, mem_alErase x hx⟩
  · next hne =>
    rcases mem_alSet x hx with h1 | h1
    · cases hfind : alFind? px pxLevels with
      | none =>
        exfalso
        apply hne
        have : alGetD px pxLevels [] = [] := by
          unfold alGetD
          rw [hfind]
          rfl
        rw [this]
        rfl
      | some q0 =>
        exact ⟨q0, by rw [congrArg Prod.fst h1]; exact alFind?_mem hfind⟩
    · exact ⟨x.2, h1⟩

/-- `_cancelOrder` preserves no-cross: it only removes an order (and
possibly its emptied level) from one side of one symbol. -/
theorem stateNoCross_cancelOrder (oid : Nat) (s : State) (h : stateNoCross s) :
    stateNoCross (cancelOrder oid s).2 := by
  unfold cancelOrder
  cases hfind : alFind? oid s.orderCache with
  | none => exact h
  | some ord =>
    have hsd := sidesNoCross_getD h ord.symbol
    cases hside : ord.side with
    | buy =>
      simp only [hside]
      intro sym sd hmem
      rcases mem_alSet (sym, sd) hmem with h1 | h1
      · have hsd2 : sd = _ := congrArg Prod.snd h1
        rw [hsd2]
        intro bl hbl al hal
        obtain ⟨q0, hq0⟩ := mem_cancel_pxLevels hbl
        exact hsd (bl.1, q0) hq0 al hal
      · exact h sym sd h1
    | sell =>
      simp only [hside]
      intro sym sd hmem
      rcases mem_alSet (sym, sd) hmem with h1 | h1
      · have hsd2 : sd = _ := congrArg Prod.snd h1
        rw [hsd2]
        intro bl hbl al hal
        obtain ⟨q0, hq0⟩ := mem_cancel_pxLevels hal
        exact hsd bl hbl (al.1, q0) hq0
      · exact h sym sd h1

/-- Every engine operation preserves the no-cross property. -/
theorem stateNoCross_applyCmd (c : Cmd) {s : State} (h : stateNoCross s) :
    stateNoCross (applyCmd c s) := by
  cases c with
  | place o =>
    cases hp : placeOrder o s with
    | none => simpa [applyCmd, hp] using h
    | some pr =>
      have hred : applyCmd (Cmd.place o) s = pr.2 := by simp [applyCmd, hp]
      rw [hred]
      exact stateNoCross_placeOrder h (show placeOrder o s = some (pr.1, pr.2) from hp)
  | cancel oid => exact stateNoCross_cancelOrder oid s h
  | print => exact h

/-- Every reachable engine state satisfies no-cross. -/
theorem stateNoCross_reachable {s : State} (h : Reachable s) : stateNoCross s := by
  induction h with
  | init => intro sym sd hmem; simp [initialState] at hmem
  | step c hs ih => exact stateNoCross_applyCmd c ih

/-! ## Claim theorems: concrete behaviour of the code -/

/-- C1: refuted as stated — results produced while processing a line do
NOT appear in the sequence returned by `SimpleCross::action`.  Cancelling
an unknown id produces the error result `E 5 Order ID not on book`, but the
function writes it to standard output and returns the empty `results_t`
(the source ends in `return results_t();`), so the returned sequence misses
every result, contradicting the call contract and the example session in
the program's own header comment. -/
theorem C1_results_not_in_returned_sequence :
    action "X 5" initialState =
      Except.ok ⟨initialState, ["E 5 Order ID not on book"], []⟩ := by
  rfl

/-- C2: refuted as stated — `action` is not total.  Placing the same
well-formed order line twice makes `_validateOrderId` throw
`std::invalid_argument("Invalid Order ID")`, which propagates out of
`action` (no handler exists up to `main`), aborting the process instead of
yielding one `E` result line. -/
theorem C2_duplicate_place_throws :
    (action "O 1 IBM B 5 100.00000" initialState).bind
      (fun o => action "O 1 IBM B 5 100.00000" o.state) =
      Except.error (CrossError.invalidArgument "Invalid Order ID") := by
  rfl

/-- C3: refuted as stated — a match emits exactly ONE fill record, bearing
the resting (passive) order's identifier; no record with the aggressor's
identifier is ever pushed (`fill.oid = restingOrder.oid` is the only
assignment).  Here the incoming buy 2 matches resting sell 1 for 5 shares
and the produced fill vector is the single passive record. -/
theorem C3_single_fill_record_per_match :
    ((placeOrder ⟨1, "IBM", Side.sell, 5, 10000000⟩ initialState).bind fun r1 =>
      placeOrder ⟨2, "IBM", Side.buy, 5, 10000000⟩ r1.2).map Prod.fst =
      some [⟨1, "IBM", 5, 10000000⟩] := by
  rfl

/-- C4: confirmed — after every completed action (every reachable engine
state), for every symbol in the book whose bid side and ask side are both
non-empty, the minimum resting ask level price strictly exceeds the
maximum resting bid level price: the book never holds a crossable pair,
because an order rests only after the level loops have erased every
marketable opposite-side level. -/
theorem C4_no_crossed_book {s : State} (hs : Reachable s) {sym : String} {sd : Sides}
    (hmem : (sym, sd) ∈ s.orderBook) {mb ma : Int}
    (hmb : (sd.bids.map Prod.fst).max? = some mb)
    (hma : (sd.asks.map Prod.fst).min? = some ma) : mb < ma := by
  have hnc := stateNoCross_reachable hs sym sd hmem
  have hmb' : mb ∈ sd.bids.map Prod.fst := List.max?_mem (fun a b => max_choice a b) hmb
  have hma' : ma ∈ sd.asks.map Prod.fst := List.min?_mem (fun a b => min_choice a b) hma
  obtain ⟨bl, hbl, hbl1⟩ := List.mem_map.mp hmb'
  obtain ⟨al, hal, hal1⟩ := List.mem_map.mp hma'
  rw [← hbl1, ← hal1]
  exact hnc bl hbl al hal

/-- Witness for C4: after placing a bid at 100.00000 and an ask at
200.00000 on IBM, the reachable book has both sides non-empty and the
theorem yields 100.00000 < 200.00000 (in scaled price units). -/
theorem C4_no_crossed_book_witness : (10000000 : Int) < 20000000 :=
  C4_no_crossed_book
    (reachable_runCmds [Cmd.place ⟨1, "IBM", Side.buy, 5, 10000000⟩,
                        Cmd.place ⟨2, "IBM", Side.sell, 5, 20000000⟩])
    (by decide :
      ("IBM", (⟨[(10000000, [⟨1, "IBM", Side.buy, 5, 10000000⟩])],
                [(20000000, [⟨2, "IBM", Side.sell, 5, 20000000⟩])]⟩ : Sides)) ∈
        (runCmds [Cmd.place ⟨1, "IBM", Side.buy, 5, 10000000⟩,
                  Cmd.place ⟨2, "IBM", Side.sell, 5, 20000000⟩] initialState).orderBook)
    (by decide :
      (([((10000000 : Int), [⟨1, "IBM", Side.buy, 5, 10000000⟩])] : PriceLevels).map
        Prod.fst).max? = some 10000000)
    (by decide :
      (([((20000000 : Int), [⟨2, "IBM", Side.sell, 5, 20000000⟩])] : PriceLevels).map
        Prod.fst).min? = some 20000000)

/-- C5: refuted as stated — fully filled resting orders are not the ones
removed.  With bid queue `[order 1 (qty 5), order 2 (qty 5)]` at one price,
an incoming sell of 5 fully fills order 1, but the cleanup loop calls
`pop_back`, removing order 2 from the BACK; the surviving queue holds the
fully filled order 1 with open quantity 0 and has lost the untouched
order 2. -/
theorem C5_pop_back_removes_wrong_order :
    (runCmds [Cmd.place ⟨1, "IBM", Side.buy, 5, 10000000⟩,
              Cmd.place ⟨2, "IBM", Side.buy, 5, 10000000⟩,
              Cmd.place ⟨3, "IBM", Side.sell, 5, 10000000⟩] initialState).orderBook =
      [("IBM", ⟨[(10000000, [⟨1, "IBM", Side.buy, 0, 10000000⟩])], []⟩)] := by
  decide

/-- C6: refuted as stated — duplicate identifiers are answered by an
uncaught exception, not an `E` line, and identifiers of orders fully
filled on arrival are not remembered at all.  First conjunct: re-placing a
cached id makes `_placeOrder` throw (modelled as `none`).  Second
conjunct: order 2 was fully filled on arrival (so `_placeOrder` skipped
the cache insert), and a later place reusing id 2 is simply accepted,
returning the empty fill vector. -/
theorem C6_duplicate_id_handling :
    (placeOrder ⟨1, "IBM", Side.buy, 5, 10000000⟩
        (runCmds [Cmd.place ⟨1, "IBM", Side.buy, 5, 10000000⟩] initialState) = none) ∧
    ((placeOrder ⟨2, "IBM", Side.buy, 7, 5000000⟩
        (runCmds [Cmd.place ⟨1, "IBM", Side.buy, 5, 10000000⟩,
                  Cmd.place ⟨2, "IBM", Side.sell, 5, 10000000⟩] initialState)).map Prod.fst =
      some []) := by
  exact ⟨by decide, by decide⟩

/-- C7: refuted as stated — a second `X 1` after a successful cancel is
acknowledged again with `X 1` instead of `E 1 Order ID not on book`,
because `_cancelOrder` consults the never-cleaned `orderCache`; the stale
hit then walks an empty queue and erases the end iterator (undefined
behaviour in the C++, modelled as a no-op) and returns `true`. -/
theorem C7_second_cancel_acknowledged :
    ((action "O 1 IBM B 5 100.00000" initialState).bind fun a =>
      (action "X 1" a.state).bind fun b =>
        action "X 1" b.state).map (fun c => c.logged) =
      Except.ok ["X 1"] := by
  rfl

/-- C8: refuted as stated — within one price level the snapshot prints
orders front to back, i.e. in ARRIVAL order (earliest first), because
`_printSortedBook` iterates each queue forward; the claim (and the
program's own example, `P 10009` before `P 10008`) requires reverse
arrival order.  With two sells resting at one level, the earlier order 1
is printed first. -/
theorem C8_snapshot_prints_arrival_order :
    printSortedBook
      (runCmds [Cmd.place ⟨1, "IBM", Side.sell, 5, 10100000⟩,
                Cmd.place ⟨2, "IBM", Side.sell, 5, 10100000⟩] initialState).orderBook =
      ["P 1 IBM S 5 101.000000", "P 2 IBM S 5 101.000000"] := by
  decide

/-- C9: refuted as stated — quantity is not conserved.  `_fillBid`
iterates the ask side BY VALUE, so executed shares are decremented only on
a copy of the resting queue; resting sell 1 (original quantity 10) is
filled for 5 by buy 2, stays at quantity 10 on the book, and is then
filled for another 10 by buy 3: the fill quantities emitted for id 1 sum
to 15, exceeding its original quantity. -/
theorem C9_resting_order_overfilled :
    ((placeOrder ⟨1, "IBM", Side.sell, 10, 10000000⟩ initialState).bind fun r1 =>
      (placeOrder ⟨2, "IBM", Side.buy, 5, 10000000⟩ r1.2).bind fun r2 =>
        (placeOrder ⟨3, "IBM", Side.buy, 10, 10000000⟩ r2.2).map fun r3 =>
          ((r2.1 ++ r3.1).filter (fun f => f.oid = 1)).foldl (fun a f => a + f.qty) 0) =
      some 15 := by
  decide

/-- C10: confirmed — processing a snapshot line `P` never modifies the
engine state: for every state (in particular every reachable one), the
state after `action "P"` equals the state before; `_printSortedBook` only
reads the book. -/
theorem C10_print_action_preserves_state (s : State) :
    (action "P" s).map (fun o => o.state) = Except.ok s := by
  rfl

end SimpleCross
